import Mathlib

/-!
Verification of the from-scratch k-means clustering engine (`kmeans.py`).

The engine is embedded shallowly: points are vectors of rationals (an exact
model of the float64 arithmetic), the instance fields of the `KMeans` class
become an explicit record threaded through `fit`/`predict`, and the global
NumPy random generator is modelled by an abstract state `st : ℕ` together
with a draw function supplying the K sampled indices.
-/

/-- A point: one row of the data matrix `X`, a vector of coordinates. -/
abbrev Point := List ℚ

/-- Squared Euclidean distance, `((X[:, np.newaxis] - centroids) ** 2).sum(axis=2)`
for one point/centroid pair.  The code then applies `np.sqrt` before `argmin`;
the square root is strictly monotone, so the first-minimum index is computed
on the squared distances without loss. -/
def sqDist (p q : Point) : ℚ :=
  (List.zipWith (fun a b => (a - b) ^ 2) p q).sum

/-- `np.argmin`: index of the first occurrence of the minimum of a list
(`0` on the empty list, where NumPy raises; callers handle that case). -/
def argmin : List ℚ → ℕ
  | [] => 0
  | [_] => 0
  | x :: y :: xs =>
    if x ≤ (y :: xs).getD (argmin (y :: xs)) 0 then 0 else argmin (y :: xs) + 1

/-- `_assign_labels`: the nearest-centroid index of every point.  `none`
models the `ValueError` that `np.argmin` raises over an empty centroid axis
(empty centroid set with at least one point). -/
def assignLabels (X C : List Point) : Option (List ℕ) :=
  if X ≠ [] ∧ C = [] then none
  else some (X.map fun x => argmin (C.map fun c => sqDist x c))

/-- Componentwise vector sum (NumPy elementwise addition at equal shapes). -/
def addVec (p q : Point) : Point := List.zipWith (· + ·) p q

/-- `np.mean(ps, axis=0)`: the componentwise arithmetic mean; `none` on the
empty list, where NumPy yields NaN (mean of an empty slice). -/
def meanPoint : List Point → Option Point
  | [] => none
  | p :: rest =>
    some ((rest.foldl addVec p).map (fun a => a / ((p :: rest).length : ℚ)))

/-- `X[self.labels == j]`: the points whose label is `j` (labels aligned
positionally with `X`). -/
def clusterPoints (X : List Point) (lab : List ℕ) (j : ℕ) : List Point :=
  (X.zip lab).filterMap (fun pj => if pj.2 = j then some pj.1 else none)

/-- `_update_centroids`: the mean of each cluster `0 .. K-1`.  `none` marks a
run in which some cluster is empty: there NumPy silently produces a NaN
centroid, a value the exact-arithmetic model cannot represent, so the model
stops at the point where the undefined value first appears. -/
def updateCentroids (K : ℕ) (X : List Point) (lab : List ℕ) : Option (List Point) :=
  (List.range K).mapM (fun j => meanPoint (clusterPoints X lab j))

/-- `np.isclose` on scalars with the NumPy defaults `rtol = 1e-5`, `atol = 1e-8`. -/
def rclose (a b : ℚ) : Bool :=
  |a - b| ≤ 1 / 100000000 + (1 / 100000) * |b|

/-- `np.allclose` at equal shapes, applied elementwise. -/
def allclose (c d : List Point) : Bool :=
  (List.zipWith (fun p q => (List.zipWith rclose p q).all id) c d).all id

/-- Python-level failures surfaced while `fit`/`predict` execute. -/
inductive PyErr
  /-- ValueError from `np.random.choice`: sample size negative or larger than
  the population. -/
  | badSample
  /-- ValueError from `np.argmin` over an empty centroid axis. -/
  | emptyArgmin
  /-- Mean over an empty cluster: NumPy silently produces NaN here; the exact
  model marks the point where the undefined value appears. -/
  | nanCentroid
  /-- TypeError from array arithmetic against `centroids = None`
  (`predict` before any `fit`). -/
  | noneCentroids
deriving DecidableEq

/-- The instance fields of the `KMeans` class. -/
structure KMeans where
  n_clusters : ℤ
  max_iter : ℤ
  random_state : Option ℤ
  centroids : Option (List Point)
  labels : Option (List ℕ)
deriving DecidableEq

/-- Instrumentation of one `fit` run: the failure (if any), whether the loop
halted through the convergence `break`, and how many loop iterations ran. -/
structure RunInfo where
  err : Option PyErr
  converged : Bool
  itersRun : ℕ
deriving DecidableEq

/-- The `for _ in range(self.max_iter)` loop of `fit`: assignment step, update
step, convergence check.  `fuel` is the number of remaining iterations and
`done` the number already performed. -/
def loopS (X : List Point) (K : ℕ) : ℕ → ℕ → KMeans → RunInfo × KMeans
  | 0, done, s => ({ err := none, converged := false, itersRun := done }, s)
  | fuel + 1, done, s =>
    match assignLabels X (s.centroids.getD []) with
    | none => ({ err := some .emptyArgmin, converged := false, itersRun := done }, s)
    | some lab =>
      match updateCentroids K X lab with
      | none =>
        ({ err := some .nanCentroid, converged := false, itersRun := done + 1 },
         { s with labels := some lab })
      | some newC =>
        if allclose (s.centroids.getD []) newC then
          ({ err := none, converged := true, itersRun := done + 1 },
           { s with labels := some lab })
        else
          loopS X K fuel (done + 1) { s with labels := some lab, centroids := some newC }

/-- `fit`, with the index sample of `np.random.choice(N, K, replace=False)`
modelled by its validity check (ValueError when `K < 0` or `K > N`) followed
by a draw `draw st N K` from the generator state `st`. -/
def fitS (draw : ℕ → ℕ → ℕ → List ℕ) (st : ℕ) (s : KMeans) (X : List Point) :
    RunInfo × KMeans :=
  if s.n_clusters < 0 ∨ (X.length : ℤ) < s.n_clusters then
    ({ err := some .badSample, converged := false, itersRun := 0 }, s)
  else
    let idx := draw st X.length s.n_clusters.toNat
    let c0 := idx.map (fun i => X.getD i [])
    loopS X s.n_clusters.toNat s.max_iter.toNat 0 { s with centroids := some c0 }

/-- `fit` at the top level: `if self.random_state: np.random.seed(...)`
replaces the global generator state when `random_state` is truthy (`None` and
`0` are falsy in Python, so no seeding happens for them); otherwise the
ambient global state is used. -/
def fitTop (draw : ℕ → ℕ → ℕ → List ℕ) (ambient : ℕ) (s : KMeans) (X : List Point) :
    RunInfo × KMeans :=
  match s.random_state with
  | some v => if v ≠ 0 then fitS draw v.natAbs s X else fitS draw ambient s X
  | none => fitS draw ambient s X

/-- `predict`: the assignment step against the stored centroids.  The engine
record is returned alongside the labels to make the frame effect explicit:
the method body reads but never writes the instance fields. -/
def predictS (s : KMeans) (X : List Point) : Except PyErr (List ℕ) × KMeans :=
  match s.centroids with
  | none => (.error .noneCentroids, s)
  | some c =>
    match assignLabels X c with
    | none => (.error .emptyArgmin, s)
    | some lab => (.ok lab, s)

/-- Total within-cluster squared distance of a labelling against a centroid
set: the sum over all points of the squared distance to the assigned centroid. -/
def sse (X : List Point) (C : List Point) (lab : List ℕ) : ℚ :=
  ((X.zip lab).map (fun pj => sqDist pj.1 (C.getD pj.2 []))).sum

/-- A concrete stand-in for the global NumPy generator, used to exhibit
particular runs: drawing `k` distinct indices out of `n`, with the outcome
depending on the generator state `st`. -/
def demoDraw (st n k : ℕ) : List ℕ := ((List.range n).rotate st).take k

/-! ### Properties of `argmin` -/

/-- `argmin` returns an in-range index on nonempty lists. -/
theorem argmin_lt_length : ∀ (l : List ℚ), l ≠ [] → argmin l < l.length
  | [], h => absurd rfl h
  | [_], _ => by simp [argmin]
  | x :: y :: xs, _ => by
    rw [argmin]
    split
    · simp
    · have := argmin_lt_length (y :: xs) (by simp)
      simpa [Nat.succ_lt_succ_iff] using this

/-- The value at `argmin` is a minimum of the list. -/
theorem argmin_le : ∀ (l : List ℚ) (k : ℕ), k < l.length →
    l.getD (argmin l) 0 ≤ l.getD k 0
  | [], k, h => by simp at h
  | [x], k, h => by
    have hk : k = 0 := by simpa using Nat.lt_one_iff.mp (by simpa using h)
    subst hk; simp [argmin]
  | x :: y :: xs, k, h => by
    rw [argmin]
    by_cases hx : x ≤ (y :: xs).getD (argmin (y :: xs)) 0
    · rw [if_pos hx]
      match k with
      | 0 => simp
      | k + 1 =>
        have hk : k < (y :: xs).length := by simpa using h
        have h2 := argmin_le (y :: xs) k hk
        simpa using le_trans hx h2
    · rw [if_neg hx]
      match k with
      | 0 =>
        push_neg at hx
        simpa using le_of_lt hx
      | k + 1 =>
        have hk : k < (y :: xs).length := by simpa using h
        simpa using argmin_le (y :: xs) k hk

/-- `argmin` picks the first occurrence of the minimum: every earlier entry is
strictly larger. -/
theorem argmin_first : ∀ (l : List ℚ) (k : ℕ), k < argmin l →
    l.getD (argmin l) 0 < l.getD k 0
  | [], k, h => by simp [argmin] at h
  | [x], k, h => by simp [argmin] at h
  | x :: y :: xs, k, h => by
    rw [argmin] at h ⊢
    by_cases hx : x ≤ (y :: xs).getD (argmin (y :: xs)) 0
    · rw [if_pos hx] at h; simp at h
    · rw [if_neg hx] at h ⊢
      push_neg at hx
      match k with
      | 0 => simpa using hx
      | k + 1 =>
        have hk : k < argmin (y :: xs) := by omega
        simpa using argmin_first (y :: xs) k hk

/-! ### Properties of `sqDist` and closeness -/

theorem sqDist_nonneg : ∀ (p q : Point), 0 ≤ sqDist p q
  | [], _ => by simp [sqDist]
  | _ :: _, [] => by simp [sqDist]
  | a :: p, b :: q => by
    have h := sqDist_nonneg p q
    simp only [sqDist, List.zipWith_cons_cons, List.sum_cons] at h ⊢
    exact add_nonneg (sq_nonneg _) h

theorem sqDist_cons (a b : ℚ) (p q : Point) :
    sqDist (a :: p) (b :: q) = (a - b) ^ 2 + sqDist p q := by
  simp [sqDist]

theorem rclose_self (a : ℚ) : rclose a a = true := by
  simp only [rclose, sub_self, abs_zero, decide_eq_true_eq]
  positivity

theorem allclose_self (c : List Point) : allclose c c = true := by
  simp only [allclose, List.zipWith_same, List.all_eq_true, List.mem_map, id]
  rintro b ⟨p, hp, rfl⟩
  simp only [List.zipWith_same, List.all_eq_true, List.mem_map, id]
  rintro b ⟨a, ha, rfl⟩
  exact rclose_self a

/-! ### The mean minimizes the within-cluster sum of squared distances -/

theorem foldl_add_eq (l : List ℚ) (a : ℚ) : l.foldl (· + ·) a = a + l.sum := by
  induction l generalizing a with
  | nil => simp
  | cons x xs ih => rw [List.foldl_cons, ih, List.sum_cons]; ring

theorem addVec_cons (a b : ℚ) (p q : Point) :
    addVec (a :: p) (b :: q) = (a + b) :: addVec p q := rfl

theorem foldl_addVec_cons : ∀ (ps : List Point) (a : ℚ) (t : Point),
    (∀ q ∈ ps, q ≠ []) →
    ps.foldl addVec (a :: t) =
      ((ps.map (fun q => q.headD 0)).foldl (· + ·) a) ::
        ((ps.map List.tail).foldl addVec t)
  | [], a, t, _ => rfl
  | q :: rest, a, t, hall => by
    obtain ⟨qh, qt, rfl⟩ := List.exists_cons_of_ne_nil (hall q (by simp))
    rw [List.foldl_cons, addVec_cons,
      foldl_addVec_cons rest (a + qh) (addVec t qt) (fun r hr => hall r (by simp [hr]))]
    simp

/-- Splitting the componentwise mean of a list of nonempty vectors into the
mean of the heads and the mean of the tails. -/
theorem meanPoint_cons_decomp (ps : List Point) (hne : ps ≠ [])
    (hall : ∀ q ∈ ps, q ≠ []) :
    ∃ μt, meanPoint (ps.map List.tail) = some μt ∧
      meanPoint ps =
        some (((ps.map (fun q => q.headD 0)).sum / (ps.length : ℚ)) :: μt) := by
  obtain ⟨p, rest, rfl⟩ := List.exists_cons_of_ne_nil hne
  obtain ⟨a, t, rfl⟩ := List.exists_cons_of_ne_nil (hall p (List.mem_cons_self p rest))
  refine ⟨((rest.map List.tail).foldl addVec t).map
    (fun x => x / (((a :: t) :: rest).length : ℚ)), ?_, ?_⟩
  · simp [meanPoint]
  · rw [meanPoint, foldl_addVec_cons rest a t (fun r hr => hall r (by simp [hr]))]
    simp only [List.map_cons, List.sum_cons, foldl_add_eq]
    rfl

theorem sum_sq_dev (l : List ℚ) (c : ℚ) :
    (l.map (fun x => (x - c) ^ 2)).sum =
      (l.map (fun x => x ^ 2)).sum - 2 * c * l.sum + (l.length : ℚ) * c ^ 2 := by
  induction l with
  | nil => simp
  | cons x xs ih =>
    simp only [List.map_cons, List.sum_cons, ih, List.length_cons]
    push_cast
    ring

/-- One-dimensional form: the arithmetic mean minimizes the sum of squared
deviations. -/
theorem mean_min_1d (l : List ℚ) (hne : l ≠ []) (c : ℚ) :
    (l.map (fun x => (x - l.sum / (l.length : ℚ)) ^ 2)).sum ≤
      (l.map (fun x => (x - c) ^ 2)).sum := by
  have hpos : 0 < (l.length : ℚ) := by
    exact_mod_cast List.length_pos.mpr hne
  have hμ : l.sum = (l.length : ℚ) * (l.sum / (l.length : ℚ)) := by
    field_simp
  have key : (l.map (fun x => (x - c) ^ 2)).sum -
      (l.map (fun x => (x - l.sum / (l.length : ℚ)) ^ 2)).sum =
      (l.length : ℚ) * (l.sum / (l.length : ℚ) - c) ^ 2 := by
    rw [sum_sq_dev, sum_sq_dev]
    nth_rewrite 1 [hμ]
    nth_rewrite 3 [hμ]
    ring
  nlinarith [mul_nonneg hpos.le (sq_nonneg (l.sum / (l.length : ℚ) - c))]

theorem sum_sqDist_split : ∀ (ps : List Point), (∀ q ∈ ps, q ≠ []) →
    ∀ (d0 : ℚ) (d : Point),
    (ps.map (fun p => sqDist p (d0 :: d))).sum =
      ((ps.map (fun q => q.headD 0)).map (fun x => (x - d0) ^ 2)).sum +
        ((ps.map List.tail).map (fun t => sqDist t d)).sum
  | [], _, _, _ => by simp
  | q :: rest, hall, d0, d => by
    obtain ⟨a, t, rfl⟩ := List.exists_cons_of_ne_nil (hall q (List.mem_cons_self q rest))
    have ih := sum_sqDist_split rest (fun r hr => hall r (by simp [hr])) d0 d
    simp only [List.map_cons, List.sum_cons, sqDist_cons, List.headD_cons, List.tail_cons, ih]
    ring

/-- Vector form: the componentwise mean of a nonempty cluster minimizes the
cluster's sum of squared Euclidean distances, among all centroids of the
points' dimension. -/
theorem mean_min_vec (c : Point) : ∀ (ps : List Point), ps ≠ [] →
    (∀ p ∈ ps, p.length = c.length) → ∀ μ, meanPoint ps = some μ →
    (ps.map (fun p => sqDist p μ)).sum ≤ (ps.map (fun p => sqDist p c)).sum := by
  induction c with
  | nil =>
    intro ps hne hlen μ hμ
    have hz : ∀ p ∈ ps, p = [] := fun p hp => List.length_eq_zero.mp (hlen p hp)
    have h1 : (ps.map (fun p => sqDist p μ)).sum = 0 := by
      apply List.sum_eq_zero
      intro x hx
      obtain ⟨p, hp, rfl⟩ := List.mem_map.mp hx
      rw [hz p hp]
      simp [sqDist]
    have h2 : (ps.map (fun p => sqDist p ([] : Point))).sum = 0 := by
      apply List.sum_eq_zero
      intro x hx
      obtain ⟨p, hp, rfl⟩ := List.mem_map.mp hx
      simp [sqDist]
    rw [h1, h2]
  | cons b c' ih =>
    intro ps hne hlen μ hμ
    have hall : ∀ q ∈ ps, q ≠ [] := by
      intro q hq
      have := hlen q hq
      simp only [List.length_cons] at this
      exact List.ne_nil_of_length_pos (by omega)
    obtain ⟨μt, hμt, hmean⟩ := meanPoint_cons_decomp ps hne hall
    rw [hμ] at hmean
    obtain rfl := Option.some.inj hmean
    rw [sum_sqDist_split ps hall, sum_sqDist_split ps hall]
    have hheads : (ps.map (fun q => q.headD 0)) ≠ [] := by
      simpa using hne
    have hlen1 : (ps.map (fun q => q.headD 0)).length = ps.length := List.length_map _ _
    have h1 : ((ps.map (fun q => q.headD 0)).map
        (fun x => (x - (ps.map (fun q => q.headD 0)).sum / (ps.length : ℚ)) ^ 2)).sum ≤
        ((ps.map (fun q => q.headD 0)).map (fun x => (x - b) ^ 2)).sum := by
      have := mean_min_1d (ps.map (fun q => q.headD 0)) hheads b
      rwa [hlen1] at this
    have h2 : ((ps.map List.tail).map (fun t => sqDist t μt)).sum ≤
        ((ps.map List.tail).map (fun t => sqDist t c')).sum := by
      apply ih (ps.map List.tail) (by simpa using hne) ?_ μt hμt
      intro t ht
      obtain ⟨p, hp, rfl⟩ := List.mem_map.mp ht
      have := hlen p hp
      simp only [List.length_cons] at this
      simp [List.length_tail, this]
    exact add_le_add h1 h2

/-! ### Regrouping the total squared distance by cluster -/

theorem sum_by_cluster (f : Point → ℕ → ℚ) (K : ℕ) :
    ∀ (X : List Point) (lab : List ℕ), X.length = lab.length →
    (∀ j ∈ lab, j < K) →
    ((X.zip lab).map (fun pj => f pj.1 pj.2)).sum =
      Finset.sum (Finset.range K)
        (fun j => ((clusterPoints X lab j).map (fun p => f p j)).sum)
  | [], lab, hlen, _ => by
    have : lab = [] := by
      cases lab with
      | nil => rfl
      | cons a l => simp at hlen
    subst this
    simp [clusterPoints]
  | x :: X', lab, hlen, hlab => by
    cases lab with
    | nil => simp at hlen
    | cons j0 lab' =>
      have hlen' : X'.length = lab'.length := by simpa using hlen
      have hlab' : ∀ j ∈ lab', j < K := fun j hj => hlab j (by simp [hj])
      have ih := sum_by_cluster f K X' lab' hlen' hlab'
      have hcp : ∀ j, clusterPoints (x :: X') (j0 :: lab') j =
          if j0 = j then x :: clusterPoints X' lab' j else clusterPoints X' lab' j := by
        intro j
        simp only [clusterPoints, List.zip_cons_cons, List.filterMap_cons]
        by_cases h : j0 = j
        · simp [h]
        · simp [h]
      have hterm : ∀ j, ((clusterPoints (x :: X') (j0 :: lab') j).map (fun p => f p j)).sum =
          ((clusterPoints X' lab' j).map (fun p => f p j)).sum +
            (if j = j0 then f x j0 else 0) := by
        intro j
        rw [hcp j]
        by_cases h : j0 = j
        · subst h
          simp [add_comm]
        · rw [if_neg h, if_neg (fun hc => h hc.symm)]
          simp
      simp only [List.zip_cons_cons, List.map_cons, List.sum_cons, ih]
      rw [Finset.sum_congr rfl (fun j _ => hterm j), Finset.sum_add_distrib,
        Finset.sum_ite_eq' (Finset.range K) j0 (fun _ => f x j0)]
      rw [if_pos (Finset.mem_range.mpr (hlab j0 (by simp)))]
      ring

/-! ### Reading off the result of the update step -/

theorem mapM_option_spec (g : ℕ → Option Point) :
    ∀ (l : List ℕ) (ys : List Point), l.mapM g = some ys →
    ys.length = l.length ∧ ∀ i, i < l.length → g (l.getD i 0) = some (ys.getD i [])
  | [], ys, h => by
    simp only [List.mapM_nil, pure, Option.some.injEq] at h
    subst h
    exact ⟨rfl, by intro i hi; simp at hi⟩
  | a :: l, ys, h => by
    simp only [List.mapM_cons] at h
    cases hga : g a with
    | none => rw [hga] at h; simp at h
    | some y =>
      rw [hga] at h
      cases hml : l.mapM g with
      | none =>
        rw [hml] at h
        simp [Option.bind] at h
      | some ys' =>
        rw [hml] at h
        obtain ⟨hlen', hspec'⟩ := mapM_option_spec g l ys' hml
        obtain rfl : ys = y :: ys' := (Option.some.inj h).symm
        refine ⟨by simp [hlen'], ?_⟩
        intro i hi
        match i with
        | 0 => simpa using hga
        | i + 1 =>
          have : i < l.length := by simpa using hi
          simpa using hspec' i this

/-- What `updateCentroids K X lab = some C'` tells us: there are `K` new
centroids and the `j`-th one is the mean of the `j`-th cluster. -/
theorem updateCentroids_spec (K : ℕ) (X : List Point) (lab : List ℕ)
    (C' : List Point) (h : updateCentroids K X lab = some C') :
    C'.length = K ∧ ∀ j, j < K →
      meanPoint (clusterPoints X lab j) = some (C'.getD j []) := by
  obtain ⟨hlen, hspec⟩ := mapM_option_spec _ _ _ h
  refine ⟨by simpa using hlen, ?_⟩
  intro j hj
  have := hspec j (by simpa using hj)
  rwa [List.getD_eq_getElem _ _ (by simpa using hj), List.getElem_range] at this

theorem mem_of_mem_clusterPoints {X : List Point} {lab : List ℕ} {j : ℕ}
    {p : Point} (h : p ∈ clusterPoints X lab j) : p ∈ X := by
  simp only [clusterPoints, List.mem_filterMap] at h
  obtain ⟨pj, hmem, hif⟩ := h
  by_cases hc : pj.2 = j
  · rw [if_pos hc] at hif
    obtain rfl := Option.some.inj hif
    exact (List.of_mem_zip hmem).1
  · rw [if_neg hc] at hif
    exact absurd hif (by simp)

theorem meanPoint_ne_nil {ps : List Point} {μ : Point}
    (h : meanPoint ps = some μ) : ps ≠ [] := by
  cases ps with
  | nil => simp [meanPoint] at h
  | cons p rest => simp

/-! ### The two halves of the descent argument -/

theorem sse_cons (x : Point) (X : List Point) (C : List Point) (j : ℕ)
    (lab : List ℕ) :
    sse (x :: X) C (j :: lab) = sqDist x (C.getD j []) + sse X C lab := by
  simp [sse]

theorem getD_map_sqDist (x : Point) (C : List Point) (k : ℕ) (hk : k < C.length) :
    (C.map (fun c => sqDist x c)).getD k 0 = sqDist x (C.getD k []) := by
  rw [List.getD_eq_getElem _ _ (by simpa using hk), List.getD_eq_getElem _ _ hk,
    List.getElem_map]

/-- Reassigning every point to its nearest centroid cannot increase the total
within-cluster squared distance, for a fixed centroid set. -/
theorem assign_step_le (C' : List Point) (hC' : C' ≠ []) :
    ∀ (X : List Point) (lab : List ℕ), X.length = lab.length →
    (∀ j ∈ lab, j < C'.length) →
    sse X C' (X.map (fun x => argmin (C'.map (fun c => sqDist x c)))) ≤ sse X C' lab
  | [], lab, _, _ => by simp [sse]
  | x :: X', lab, hlen, hlab => by
    cases lab with
    | nil => simp at hlen
    | cons j0 lab' =>
      have ih := assign_step_le C' hC' X' lab' (by simpa using hlen)
        (fun j hj => hlab j (by simp [hj]))
      rw [List.map_cons, sse_cons, sse_cons]
      have hj0 : j0 < C'.length := hlab j0 (by simp)
      have hmapne : C'.map (fun c => sqDist x c) ≠ [] := by simpa using hC'
      have harg : argmin (C'.map (fun c => sqDist x c)) < C'.length := by
        have := argmin_lt_length _ hmapne
        simpa using this
      have h1 := argmin_le (C'.map (fun c => sqDist x c)) j0 (by simpa using hj0)
      rw [getD_map_sqDist x C' _ harg, getD_map_sqDist x C' j0 hj0] at h1
      exact add_le_add h1 ih

theorem sse_group (X C : List Point) (lab : List ℕ) (K : ℕ)
    (hlen : X.length = lab.length) (hlab : ∀ j ∈ lab, j < K) :
    sse X C lab = Finset.sum (Finset.range K)
      (fun j => ((clusterPoints X lab j).map (fun p => sqDist p (C.getD j []))).sum) :=
  sum_by_cluster (fun p j => sqDist p (C.getD j [])) K X lab hlen hlab

/-- Replacing every centroid by its cluster's mean cannot increase the total
within-cluster squared distance, for fixed labels. -/
theorem update_step_le (X C C' : List Point) (lab : List ℕ) (K D : ℕ)
    (hK : C.length = K) (hlen : X.length = lab.length) (hlab : ∀ j ∈ lab, j < K)
    (hdim : ∀ p ∈ X, p.length = D) (hcdim : ∀ q ∈ C, q.length = D)
    (hupd : updateCentroids K X lab = some C') :
    sse X C' lab ≤ sse X C lab := by
  obtain ⟨hlen', hmeans⟩ := updateCentroids_spec K X lab C' hupd
  rw [sse_group X C' lab K hlen hlab, sse_group X C lab K hlen hlab]
  apply Finset.sum_le_sum
  intro j hj
  have hjK : j < K := Finset.mem_range.mp hj
  have hmean := hmeans j hjK
  have hne : clusterPoints X lab j ≠ [] := meanPoint_ne_nil hmean
  apply mean_min_vec (C.getD j []) (clusterPoints X lab j) hne ?_ _ hmean
  intro p hp
  have hpX := mem_of_mem_clusterPoints hp
  have hjC : j < C.length := by omega
  have hCj : (C.getD j []).length = D := by
    rw [List.getD_eq_getElem _ _ hjC]
    exact hcdim _ (List.getElem_mem hjC)
  rw [hdim p hpX, hCj]

/-! ### Characterizing the assignment step -/

theorem assignLabels_of_ne_nil (X C : List Point) (hC : C ≠ []) :
    assignLabels X C = some (X.map fun x => argmin (C.map fun c => sqDist x c)) := by
  rw [assignLabels, if_neg (fun h => hC h.2)]

theorem assignLabels_label_lt {X C : List Point} {lab : List ℕ}
    (hC : C ≠ []) (h : assignLabels X C = some lab) :
    ∀ j ∈ lab, j < C.length := by
  rw [assignLabels_of_ne_nil X C hC] at h
  obtain rfl := (Option.some.inj h).symm
  intro j hj
  obtain ⟨x, _, rfl⟩ := List.mem_map.mp hj
  have hmapne : C.map (fun c => sqDist x c) ≠ [] := by simpa using hC
  have := argmin_lt_length _ hmapne
  simpa using this

theorem assignLabels_length {X C : List Point} {lab : List ℕ}
    (h : assignLabels X C = some lab) : lab.length = X.length := by
  rw [assignLabels] at h
  split at h
  · exact absurd h (by simp)
  · obtain rfl := (Option.some.inj h).symm
    simp

/-- C5: across the iterations of a single fit run, the total within-cluster
squared distance is monotonically non-increasing.  One iteration carries
labels `lab = assignLabels X C` and replaces `C` by the update-step result
`C'`; the next iteration assigns `lab' = assignLabels X C'`.  The objective
after the step is no larger than before it (each update step decreases the
sum or leaves it unchanged). -/
theorem C5_sse_step_mono (X C C' : List Point) (lab lab' : List ℕ) (D : ℕ)
    (hassign : assignLabels X C = some lab)
    (hupd : updateCentroids C.length X lab = some C')
    (hassign' : assignLabels X C' = some lab')
    (hdim : ∀ p ∈ X, p.length = D) (hcdim : ∀ q ∈ C, q.length = D) :
    sse X C' lab' ≤ sse X C lab := by
  by_cases hX : X = []
  · subst hX
    simp [sse]
  · have hC : C ≠ [] := by
      intro hC
      rw [assignLabels, if_pos ⟨hX, hC⟩] at hassign
      exact absurd hassign (by simp)
    have hlabeq : lab = X.map (fun x => argmin (C.map (fun c => sqDist x c))) := by
      rw [assignLabels_of_ne_nil X C hC] at hassign
      exact (Option.some.inj hassign).symm
    have hlen : X.length = lab.length := (assignLabels_length hassign).symm
    have hlab : ∀ j ∈ lab, j < C.length := assignLabels_label_lt hC hassign
    obtain ⟨hC'len, _⟩ := updateCentroids_spec _ _ _ _ hupd
    have hC' : C' ≠ [] := by
      have : 0 < C.length := List.length_pos.mpr hC
      exact List.ne_nil_of_length_pos (by omega)
    have hlab2 : ∀ j ∈ lab, j < C'.length := by
      rw [hC'len]
      exact hlab
    have hlab'eq : lab' = X.map (fun x => argmin (C'.map (fun c => sqDist x c))) := by
      rw [assignLabels_of_ne_nil X C' hC'] at hassign'
      exact (Option.some.inj hassign').symm
    calc sse X C' lab' ≤ sse X C' lab := by
          rw [hlab'eq]
          exact assign_step_le C' hC' X lab hlen hlab2
    _ ≤ sse X C lab :=
          update_step_le X C C' lab C.length D rfl hlen hlab hdim hcdim hupd

/-- C5 witness: a concrete iteration step on `X = [[0], [2]]` with centroids
`[[0], [2]]`, where the update step leaves everything in place and the
objective does not increase. -/
theorem C5_sse_step_mono_witness :
    assignLabels [[0], [2]] [[0], [2]] = some [0, 1] ∧
    updateCentroids ([[0], [2]] : List Point).length [[0], [2]] [0, 1] =
      some [[0], [2]] ∧
    (∀ p ∈ ([[0], [2]] : List Point), p.length = 1) ∧
    sse [[0], [2]] [[0], [2]] [0, 1] ≤ sse [[0], [2]] [[0], [2]] [0, 1] := by
  have h1 : assignLabels [[0], [2]] [[0], [2]] = some [0, 1] := by
    norm_num [assignLabels, argmin, sqDist]
  have h2 : updateCentroids ([[0], [2]] : List Point).length [[0], [2]] [0, 1] =
      some [[0], [2]] := by
    norm_num [updateCentroids, clusterPoints, meanPoint, addVec, List.mapM,
      List.mapM.loop, List.filterMap]
  have h3 : ∀ p ∈ ([[0], [2]] : List Point), p.length = 1 := by
    intro p hp
    simp only [List.mem_cons, List.not_mem_nil, or_false] at hp
    rcases hp with rfl | rfl <;> rfl
  exact ⟨h1, h2, h3, C5_sse_step_mono [[0], [2]] [[0], [2]] [[0], [2]] [0, 1] [0, 1] 1
    h1 h2 h1 h3 h3⟩

/-! ### Invariants of the fit loop -/

/-- If the loop finishes without an error and ran at least one iteration, the
stored labels are a full, in-range labelling of every point. -/
theorem loopS_labels (X : List Point) (K : ℕ) (hK : 0 < K) :
    ∀ (fuel done : ℕ) (s : KMeans) (c : List Point),
    s.centroids = some c → c.length = K →
    (loopS X K fuel done s).1.err = none →
    (fuel = 0 ∧ (loopS X K fuel done s).2 = s) ∨
    (∃ lab, (loopS X K fuel done s).2.labels = some lab ∧
      lab.length = X.length ∧ ∀ j ∈ lab, j < K)
  | 0, done, s, c, _, _, _ => Or.inl ⟨rfl, rfl⟩
  | fuel + 1, done, s, c, hc, hcK, herr => by
    have hcne : c ≠ [] := List.ne_nil_of_length_pos (by omega)
    have hassign := assignLabels_of_ne_nil X c hcne
    have hlablen : (X.map fun x => argmin (c.map fun cc => sqDist x cc)).length =
        X.length := by simp
    have hlablt : ∀ j ∈ (X.map fun x => argmin (c.map fun cc => sqDist x cc)),
        j < K := by
      have := assignLabels_label_lt hcne hassign
      rwa [hcK] at this
    cases hupd : updateCentroids K X
        (X.map fun x => argmin (c.map fun cc => sqDist x cc)) with
    | none =>
      simp only [loopS, hc, Option.getD_some, hassign, hupd] at herr
      simp at herr
    | some newC =>
      simp only [loopS, hc, Option.getD_some, hassign, hupd] at herr ⊢
      by_cases hclose : allclose c newC = true
      · rw [if_pos hclose] at herr ⊢
        right
        exact ⟨_, rfl, hlablen, hlablt⟩
      · rw [if_neg hclose] at herr ⊢
        have hnewK : newC.length = K := (updateCentroids_spec _ _ _ _ hupd).1
        have ih := loopS_labels X K hK fuel (done + 1) _ newC rfl hnewK herr
        rcases ih with ⟨_, hres⟩ | h
        · rw [hres]
          right
          exact ⟨_, rfl, hlablen, hlablt⟩
        · right
          exact h

/-- If the loop halts through the convergence break, the stored labels are
exactly the assignment computed against the stored (unreplaced) centroids. -/
theorem loopS_converged (X : List Point) (K : ℕ) :
    ∀ (fuel done : ℕ) (s : KMeans) (c : List Point), s.centroids = some c →
    (loopS X K fuel done s).1.converged = true →
    ∃ c' lab, (loopS X K fuel done s).2.centroids = some c' ∧
      (loopS X K fuel done s).2.labels = some lab ∧
      assignLabels X c' = some lab
  | 0, done, s, c, hc, hconv => by
    rw [loopS] at hconv
    simp at hconv
  | fuel + 1, done, s, c, hc, hconv => by
    cases hassign : assignLabels X c with
    | none =>
      simp only [loopS, hc, Option.getD_some, hassign] at hconv
      simp at hconv
    | some lab =>
      cases hupd : updateCentroids K X lab with
      | none =>
        simp only [loopS, hc, Option.getD_some, hassign, hupd] at hconv
        simp at hconv
      | some newC =>
        simp only [loopS, hc, Option.getD_some, hassign, hupd] at hconv ⊢
        by_cases hclose : allclose c newC = true
        · rw [if_pos hclose]
          exact ⟨c, lab, rfl, rfl, hassign⟩
        · rw [if_neg hclose] at hconv ⊢
          exact loopS_converged X K fuel (done + 1) _ newC rfl hconv

/-! ### The claims -/

/-- C1 (amended): a configuration with `K > N` or `K < 0` makes fit fail at
the index-sampling step, before any iteration begins, leaving the engine's
centroids and labels unchanged.  (Configurations with `K = 0` or `M ≤ 0` are
not rejected up front: `M ≤ 0` makes fit return silently after mutating the
centroids, see the counterexample.) -/
theorem C1_invalid_K_rejected (draw : ℕ → ℕ → ℕ → List ℕ) (ambient : ℕ)
    (s : KMeans) (X : List Point)
    (h : s.n_clusters < 0 ∨ (X.length : ℤ) < s.n_clusters) :
    fitTop draw ambient s X =
      ({ err := some .badSample, converged := false, itersRun := 0 }, s) := by
  have hfit : ∀ st, fitS draw st s X =
      ({ err := some .badSample, converged := false, itersRun := 0 }, s) := by
    intro st
    rw [fitS, if_pos h]
  cases hr : s.random_state with
  | none => simp only [fitTop, hr]; exact hfit ambient
  | some v =>
    simp only [fitTop, hr]
    by_cases hv : v = 0
    · rw [if_neg (by simp [hv])]
      exact hfit ambient
    · rw [if_pos hv]
      exact hfit _

/-- C1 witness: `K = 3` on a single point is rejected before any iteration
with the engine untouched. -/
theorem C1_invalid_K_rejected_witness :
    (((3 : ℤ) < 0 ∨ ((([[0]] : List Point).length : ℤ) < 3)) ∧
    fitTop demoDraw 0
      { n_clusters := 3, max_iter := 300, random_state := none,
        centroids := none, labels := none } [[0]] =
      ({ err := some .badSample, converged := false, itersRun := 0 },
       { n_clusters := 3, max_iter := 300, random_state := none,
         centroids := none, labels := none })) := by
  have h : ((3 : ℤ) < 0 ∨ ((([[0]] : List Point).length : ℤ) < 3)) := by
    right
    norm_num
  exact ⟨h, C1_invalid_K_rejected demoDraw 0 _ _ h⟩

/-- C1 counterexample: `max_iter = 0` is an invalid configuration (`M ≤ 0`),
yet fit raises no error at all and mutates the centroids before returning,
refuting both halves of the claim. -/
theorem C1_counterexample :
    (fitTop demoDraw 0
      { n_clusters := 1, max_iter := 0, random_state := none,
        centroids := none, labels := none } [[0]]).1.err = none ∧
    (fitTop demoDraw 0
      { n_clusters := 1, max_iter := 0, random_state := none,
        centroids := none, labels := none } [[0]]).2.centroids = some [[0]] ∧
    some [([0] : Point)] ≠ (none : Option (List Point)) := by
  refine ⟨?_, ?_, by simp⟩ <;>
    norm_num [fitTop, fitS, loopS, demoDraw, List.rotate, Int.toNat, List.getD,
      List.take]

/-- C2: a run in which a centroid ends up with zero assigned points.  On
`X = [[0], [0]]` with `K = 2` both duplicate points are assigned to centroid
0 (first-minimum tie-break), so cluster 1 is empty at the update step; the
model stops at the resulting mean-of-empty-slice, where NumPy silently
produces a NaN centroid instead of signalling `DegenerateCluster`. -/
theorem C2_empty_cluster_mean_reached :
    fitS demoDraw 0
      { n_clusters := 2, max_iter := 5, random_state := none,
        centroids := none, labels := none } [[0], [0]] =
      ({ err := some .nanCentroid, converged := false, itersRun := 1 },
       { n_clusters := 2, max_iter := 5, random_state := none,
         centroids := some [[0], [0]], labels := some [0, 0] }) := by
  norm_num [fitS, loopS, demoDraw, List.rotate, Int.toNat, List.getD, assignLabels,
    argmin, sqDist, updateCentroids, clusterPoints, meanPoint, addVec, List.mapM,
    List.mapM.loop, List.filterMap, List.take, List.foldl, Option.bind, List.all]

/-- C3: predict on an engine on which fit has never run (stored centroids
still `None`) fails. -/
theorem C3_predict_unfitted (s : KMeans) (X : List Point)
    (h : s.centroids = none) :
    (predictS s X).1 = Except.error PyErr.noneCentroids := by
  simp [predictS, h]

/-- C3 witness: a freshly constructed engine rejects predict. -/
theorem C3_predict_unfitted_witness :
    ({ n_clusters := 3, max_iter := 300, random_state := none, centroids := none,
       labels := none } : KMeans).centroids = none ∧
    (predictS
      { n_clusters := 3, max_iter := 300, random_state := none, centroids := none,
        labels := none } [[1], [2]]).1 = Except.error PyErr.noneCentroids :=
  ⟨rfl, C3_predict_unfitted _ _ rfl⟩

/-- C9 (amended): with a truthy (nonzero) configured seed, fit does not
depend on the ambient global generator state: any two runs draw the same
initial indices and produce identical results, errors, centroids and labels
included. -/
theorem C9_seeded_reproducible (draw : ℕ → ℕ → ℕ → List ℕ) (a1 a2 : ℕ)
    (s : KMeans) (X : List Point) (v : ℤ) (hv : s.random_state = some v)
    (hnz : v ≠ 0) :
    fitTop draw a1 s X = fitTop draw a2 s X := by
  simp only [fitTop, hv, if_pos hnz]

/-- C9 witness: seed 42 gives the same run under ambient states 0 and 1. -/
theorem C9_seeded_reproducible_witness :
    ({ n_clusters := 2, max_iter := 5, random_state := some 42, centroids := none,
       labels := none } : KMeans).random_state = some 42 ∧ (42 : ℤ) ≠ 0 ∧
    fitTop demoDraw 0
      { n_clusters := 2, max_iter := 5, random_state := some 42, centroids := none,
        labels := none } [[0], [10]] =
    fitTop demoDraw 1
      { n_clusters := 2, max_iter := 5, random_state := some 42, centroids := none,
        labels := none } [[0], [10]] :=
  ⟨rfl, by norm_num,
    C9_seeded_reproducible demoDraw 0 1 _ _ 42 rfl (by norm_num)⟩

/-- C9 counterexample: `random_state = 0` is a configured seed value, but it
is falsy in Python, so `np.random.seed` is never called; under two different
ambient generator states the two runs draw different initial indices and end
with different labels. -/
theorem C9_counterexample :
    (fitTop demoDraw 0
      { n_clusters := 2, max_iter := 5, random_state := some 0, centroids := none,
        labels := none } [[0], [10]]).2.labels = some [0, 1] ∧
    (fitTop demoDraw 1
      { n_clusters := 2, max_iter := 5, random_state := some 0, centroids := none,
        labels := none } [[0], [10]]).2.labels = some [1, 0] ∧
    fitTop demoDraw 0
      { n_clusters := 2, max_iter := 5, random_state := some 0, centroids := none,
        labels := none } [[0], [10]] ≠
    fitTop demoDraw 1
      { n_clusters := 2, max_iter := 5, random_state := some 0, centroids := none,
        labels := none } [[0], [10]] := by
  have h1 : (fitTop demoDraw 0
      { n_clusters := 2, max_iter := 5, random_state := some 0, centroids := none,
        labels := none } [[0], [10]]).2.labels = some [0, 1] := by
    norm_num [fitTop, fitS, loopS, demoDraw, List.rotate, Int.toNat, List.getD,
      assignLabels, argmin, sqDist, updateCentroids, clusterPoints, meanPoint,
      addVec, List.mapM, List.mapM.loop, List.filterMap, allclose, rclose,
      List.take, List.foldl, Option.bind, List.all]
  have h2 : (fitTop demoDraw 1
      { n_clusters := 2, max_iter := 5, random_state := some 0, centroids := none,
        labels := none } [[0], [10]]).2.labels = some [1, 0] := by
    have hdraw : demoDraw 1 2 2 = [1, 0] := by
      norm_num [demoDraw, List.rotate, List.take]
    have hassign : assignLabels [[0], [10]] [[10], [0]] = some [1, 0] := by
      rw [assignLabels_of_ne_nil _ _ (by simp)]
      norm_num [argmin, sqDist]
    have hupd : updateCentroids 2 [[0], [10]] [1, 0] = some [[10], [0]] := by
      norm_num [updateCentroids, clusterPoints, meanPoint, addVec, List.mapM,
        List.mapM.loop, List.filterMap]
    have hclose : allclose [[10], [0]] [[10], [0]] = true := allclose_self _
    norm_num [fitTop, fitS, loopS, Int.toNat, List.getD, hdraw, hassign, hupd,
      hclose]
  refine ⟨h1, h2, fun heq => ?_⟩
  rw [heq] at h1
  rw [h1] at h2
  exact absurd h2 (by simp)

/-- C10: predict is effect-free on the engine: the state coming out of a
predict call is the state that went in, whatever it was. -/
theorem C10_predict_frame (s : KMeans) (X : List Point) : (predictS s X).2 = s := by
  cases h : s.centroids with
  | none => simp [predictS, h]
  | some c => cases h2 : assignLabels X c <;> simp [predictS, h, h2]

/-- C4 (amended): when fit halts through the convergence break — the stored
centroids are the ones the final labels were computed against — predict on
the exact training set reproduces the stored final labels.  (When fit instead
exhausts its iteration budget, the centroids are updated once more after the
final assignment and predict can drift; see the counterexample.) -/
theorem C4_predict_after_converged_fit (draw : ℕ → ℕ → ℕ → List ℕ) (st : ℕ)
    (s : KMeans) (X : List Point)
    (hconv : (fitS draw st s X).1.converged = true) :
    ∃ lab, (fitS draw st s X).2.labels = some lab ∧
      (predictS ((fitS draw st s X).2) X).1 = Except.ok lab := by
  by_cases hbad : s.n_clusters < 0 ∨ (X.length : ℤ) < s.n_clusters
  · rw [fitS, if_pos hbad] at hconv
    simp at hconv
  · rw [fitS, if_neg hbad] at hconv ⊢
    obtain ⟨c', lab, hc', hlab, hassign⟩ :=
      loopS_converged X s.n_clusters.toNat s.max_iter.toNat 0 _ _ rfl hconv
    exact ⟨lab, hlab, by simp only [predictS, hc', hassign]⟩

/-- C4 witness: a convergent run on two separated points, where predict on
the training set returns the stored labels. -/
theorem C4_predict_after_converged_fit_witness :
    (fitS demoDraw 0
      { n_clusters := 2, max_iter := 5, random_state := none, centroids := none,
        labels := none } [[0], [10]]).1.converged = true ∧
    ∃ lab, (fitS demoDraw 0
      { n_clusters := 2, max_iter := 5, random_state := none, centroids := none,
        labels := none } [[0], [10]]).2.labels = some lab ∧
      (predictS ((fitS demoDraw 0
        { n_clusters := 2, max_iter := 5, random_state := none, centroids := none,
          labels := none } [[0], [10]]).2) [[0], [10]]).1 = Except.ok lab := by
  have h : (fitS demoDraw 0
      { n_clusters := 2, max_iter := 5, random_state := none, centroids := none,
        labels := none } [[0], [10]]).1.converged = true := by
    norm_num [fitS, loopS, demoDraw, List.rotate, Int.toNat, List.getD,
      assignLabels, argmin, sqDist, updateCentroids, clusterPoints, meanPoint,
      addVec, List.mapM, List.mapM.loop, List.filterMap, allclose, rclose,
      List.take, List.foldl, Option.bind, List.all]
  exact ⟨h, C4_predict_after_converged_fit demoDraw 0 _ _ h⟩

/-- C4 counterexample: with `max_iter = 1` the loop stops by exhausting its
budget after the centroids were replaced; fit completes without error, stores
labels `[0, 1, 0, 0]`, but predict on the same training set returns
`[0, 1, 0, 1]` — the stored assignment is stale relative to the stored
centroids. -/
theorem C4_counterexample :
    (fitS demoDraw 0
      { n_clusters := 2, max_iter := 1, random_state := none, centroids := none,
        labels := none } [[0], [20], [-20], [9]]).1.err = none ∧
    (fitS demoDraw 0
      { n_clusters := 2, max_iter := 1, random_state := none, centroids := none,
        labels := none } [[0], [20], [-20], [9]]).2.labels = some [0, 1, 0, 0] ∧
    (predictS ((fitS demoDraw 0
      { n_clusters := 2, max_iter := 1, random_state := none, centroids := none,
        labels := none } [[0], [20], [-20], [9]]).2) [[0], [20], [-20], [9]]).1 =
      Except.ok [0, 1, 0, 1] ∧
    (Except.ok [0, 1, 0, 1] : Except PyErr (List ℕ)) ≠ Except.ok [0, 1, 0, 0] := by
  have hdraw : demoDraw 0 4 2 = [0, 1] := by
    norm_num [demoDraw, List.rotate, List.take]
  have hassign1 : assignLabels [[0], [20], [-20], [9]] [[0], [20]] =
      some [0, 1, 0, 0] := by
    rw [assignLabels_of_ne_nil _ _ (by simp)]
    norm_num [argmin, sqDist]
  have hupd1 : updateCentroids 2 [[0], [20], [-20], [9]] [0, 1, 0, 0] =
      some [[-(11/3)], [20]] := by
    norm_num [updateCentroids, clusterPoints, meanPoint, addVec, List.mapM,
      List.mapM.loop, List.filterMap]
  have hclose : allclose [[0], [20]] [[-(11/3)], [20]] = false := by
    norm_num [allclose, rclose]
    rw [show |(11/3 : ℚ)| = 11/3 from abs_of_pos (by norm_num)]
    norm_num
  have hrun : fitS demoDraw 0
      { n_clusters := 2, max_iter := 1, random_state := none, centroids := none,
        labels := none } [[0], [20], [-20], [9]] =
      ({ err := none, converged := false, itersRun := 1 },
       { n_clusters := 2, max_iter := 1, random_state := none,
         centroids := some [[-(11/3)], [20]], labels := some [0, 1, 0, 0] }) := by
    norm_num [fitS, loopS, Int.toNat, List.getD, hdraw, hassign1, hupd1, hclose]
  have hassign2 : assignLabels [[0], [20], [-20], [9]] [[-(11/3)], [20]] =
      some [0, 1, 0, 1] := by
    rw [assignLabels_of_ne_nil _ _ (by simp)]
    norm_num [argmin, sqDist]
  refine ⟨by rw [hrun], by rw [hrun], ?_, by simp⟩
  rw [hrun]
  simp [predictS, hassign2]

/-- C7: in the assignment step, every point's label is an in-range centroid
index whose Euclidean distance to the point is minimal, and among equally
near centroids the lowest index is chosen (every strictly earlier index is
strictly farther). -/
theorem C7_assignment_nearest (X C : List Point) (lab : List ℕ) (i : ℕ)
    (hC : C ≠ []) (h : assignLabels X C = some lab) (hi : i < X.length) :
    lab.getD i 0 < C.length ∧
    (∀ k, k < C.length →
      Real.sqrt ((sqDist (X.getD i []) (C.getD (lab.getD i 0) []) : ℚ) : ℝ) ≤
        Real.sqrt ((sqDist (X.getD i []) (C.getD k []) : ℚ) : ℝ)) ∧
    (∀ k, k < lab.getD i 0 →
      Real.sqrt ((sqDist (X.getD i []) (C.getD (lab.getD i 0) []) : ℚ) : ℝ) <
        Real.sqrt ((sqDist (X.getD i []) (C.getD k []) : ℚ) : ℝ)) := by
  have hlabi : lab.getD i 0 =
      argmin (C.map fun c => sqDist (X.getD i []) c) := by
    rw [assignLabels_of_ne_nil X C hC] at h
    obtain rfl := (Option.some.inj h).symm
    rw [List.getD_eq_getElem _ _ (by simpa using hi), List.getElem_map,
      List.getD_eq_getElem _ _ hi]
  have hmapne : C.map (fun c => sqDist (X.getD i []) c) ≠ [] := by
    simpa using hC
  have harg : argmin (C.map fun c => sqDist (X.getD i []) c) < C.length := by
    have := argmin_lt_length _ hmapne
    simpa using this
  refine ⟨by rw [hlabi]; exact harg, ?_, ?_⟩
  · intro k hk
    have h1 := argmin_le (C.map fun c => sqDist (X.getD i []) c) k
      (by simpa using hk)
    rw [getD_map_sqDist _ C _ harg, getD_map_sqDist _ C k hk] at h1
    rw [hlabi]
    exact Real.sqrt_le_sqrt (by exact_mod_cast h1)
  · intro k hk
    rw [hlabi] at hk
    have h1 := argmin_first (C.map fun c => sqDist (X.getD i []) c) k hk
    have hkC : k < C.length := lt_trans hk harg
    rw [getD_map_sqDist _ C _ harg, getD_map_sqDist _ C k hkC] at h1
    rw [hlabi]
    apply Real.sqrt_lt_sqrt
    · exact_mod_cast sqDist_nonneg _ _
    · exact_mod_cast h1

/-- C7 witness: the point `[0]` against centroids `[[0], [1]]` is assigned
to index 0, the unique nearest centroid. -/
theorem C7_assignment_nearest_witness :
    (([[0], [1]] : List Point) ≠ []) ∧
    assignLabels [[0]] [[0], [1]] = some [0] ∧
    (0 < ([[0]] : List Point).length) ∧
    (([0] : List ℕ).getD 0 0 < ([[0], [1]] : List Point).length ∧
    (∀ k, k < ([[0], [1]] : List Point).length →
      Real.sqrt ((sqDist (([[0]] : List Point).getD 0 [])
          (([[0], [1]] : List Point).getD (([0] : List ℕ).getD 0 0) []) : ℚ) : ℝ) ≤
        Real.sqrt ((sqDist (([[0]] : List Point).getD 0 [])
          (([[0], [1]] : List Point).getD k []) : ℚ) : ℝ)) ∧
    (∀ k, k < ([0] : List ℕ).getD 0 0 →
      Real.sqrt ((sqDist (([[0]] : List Point).getD 0 [])
          (([[0], [1]] : List Point).getD (([0] : List ℕ).getD 0 0) []) : ℚ) : ℝ) <
        Real.sqrt ((sqDist (([[0]] : List Point).getD 0 [])
          (([[0], [1]] : List Point).getD k []) : ℚ) : ℝ))) := by
  have hC : ([[0], [1]] : List Point) ≠ [] := by simp
  have h : assignLabels [[0]] [[0], [1]] = some [0] := by
    rw [assignLabels_of_ne_nil _ _ hC]
    norm_num [argmin, sqDist]
  have hi : 0 < ([[0]] : List Point).length := by norm_num
  exact ⟨hC, h, hi, C7_assignment_nearest [[0]] [[0], [1]] [0] 0 hC h hi⟩

/-- C8: on a valid configuration (`1 ≤ K ≤ N`, `M ≥ 1`, a well-formed index
draw) every error-free fit leaves exactly one stored label per point (the
label list has length `N`) with every label in `[0, K)`. -/
theorem C8_labels_wellformed (draw : ℕ → ℕ → ℕ → List ℕ) (st : ℕ) (s : KMeans)
    (X : List Point)
    (hK1 : 1 ≤ s.n_clusters) (hKN : s.n_clusters ≤ (X.length : ℤ))
    (hM : 1 ≤ s.max_iter)
    (hdraw : (draw st X.length s.n_clusters.toNat).length = s.n_clusters.toNat)
    (herr : (fitS draw st s X).1.err = none) :
    ∃ lab, (fitS draw st s X).2.labels = some lab ∧
      lab.length = X.length ∧ ∀ j ∈ lab, j < s.n_clusters.toNat := by
  have hbad : ¬(s.n_clusters < 0 ∨ (X.length : ℤ) < s.n_clusters) := by
    push_neg
    omega
  rw [fitS, if_neg hbad] at herr ⊢
  have hK : 0 < s.n_clusters.toNat := by omega
  have hc0 : ((draw st X.length s.n_clusters.toNat).map
      (fun i => X.getD i [])).length = s.n_clusters.toNat := by
    simp [hdraw]
  have h := loopS_labels X s.n_clusters.toNat hK s.max_iter.toNat 0 _ _ rfl hc0 herr
  rcases h with ⟨h0, _⟩ | h
  · exfalso
    omega
  · exact h

/-- C8 witness: a concrete error-free run on two points with `K = 2`. -/
theorem C8_labels_wellformed_witness :
    (1 ≤ (2 : ℤ)) ∧ ((2 : ℤ) ≤ ((([[0], [10]] : List Point).length : ℕ) : ℤ)) ∧
    (1 ≤ (5 : ℤ)) ∧
    (demoDraw 0 ([[0], [10]] : List Point).length (2 : ℤ).toNat).length =
      (2 : ℤ).toNat ∧
    (fitS demoDraw 0
      { n_clusters := 2, max_iter := 5, random_state := none, centroids := none,
        labels := none } [[0], [10]]).1.err = none ∧
    ∃ lab, (fitS demoDraw 0
      { n_clusters := 2, max_iter := 5, random_state := none, centroids := none,
        labels := none } [[0], [10]]).2.labels = some lab ∧
      lab.length = ([[0], [10]] : List Point).length ∧
      ∀ j ∈ lab, j < (2 : ℤ).toNat := by
  have herr : (fitS demoDraw 0
      { n_clusters := 2, max_iter := 5, random_state := none, centroids := none,
        labels := none } [[0], [10]]).1.err = none := by
    norm_num [fitS, loopS, demoDraw, List.rotate, Int.toNat, List.getD,
      assignLabels, argmin, sqDist, updateCentroids, clusterPoints, meanPoint,
      addVec, List.mapM, List.mapM.loop, List.filterMap, allclose, rclose,
      List.take, List.foldl, Option.bind, List.all]
  have hdraw : (demoDraw 0 ([[0], [10]] : List Point).length (2 : ℤ).toNat).length =
      (2 : ℤ).toNat := by
    norm_num [demoDraw, List.rotate, List.take, Int.toNat]
  exact ⟨by norm_num, by norm_num, by norm_num, hdraw, herr,
    C8_labels_wellformed demoDraw 0 _ _ (by norm_num) (by norm_num) (by norm_num)
      hdraw herr⟩

/-! ### The K = 1 case -/

theorem clusterPoints_replicate_zero : ∀ (X : List Point),
    clusterPoints X (List.replicate X.length 0) 0 = X
  | [] => rfl
  | x :: X' => by
    have ih := clusterPoints_replicate_zero X'
    simp only [clusterPoints] at ih
    simp [clusterPoints, List.replicate_succ, ih]

theorem assignLabels_singleton (X : List Point) (c : Point) :
    assignLabels X [c] = some (List.replicate X.length 0) := by
  rw [assignLabels_of_ne_nil X [c] (by simp)]
  simp [argmin]

theorem updateCentroids_one (X : List Point) (μ : Point)
    (hμ : meanPoint X = some μ) :
    updateCentroids 1 X (List.replicate X.length 0) = some [μ] := by
  have hr : List.range 1 = [0] := rfl
  rw [updateCentroids, hr]
  simp [List.mapM.loop, clusterPoints_replicate_zero, hμ]

/-- C6 (amended): K = 1 on a nonempty point set makes every point's label 0
and drives the single centroid to the arithmetic mean of all points after one
update; the loop needs a second iteration to detect convergence, so whenever
the drawn initial point is not already within the convergence tolerance of
the mean (and the budget allows at least 2 iterations), fit converges in
exactly 2 iterations — not 1 as claimed — with the final centroid equal to
the mean. -/
theorem C6_K1_fit_mean (draw : ℕ → ℕ → ℕ → List ℕ) (st : ℕ) (s : KMeans)
    (X : List Point) (i : ℕ) (μ : Point)
    (hX : X ≠ []) (hK : s.n_clusters = 1) (hM : 2 ≤ s.max_iter)
    (hdraw : draw st X.length 1 = [i]) (hμ : meanPoint X = some μ)
    (hfar : allclose [X.getD i []] [μ] = false) :
    (fitS draw st s X).1 = { err := none, converged := true, itersRun := 2 } ∧
    (fitS draw st s X).2.centroids = some [μ] ∧
    (fitS draw st s X).2.labels = some (List.replicate X.length 0) := by
  have hbad : ¬(s.n_clusters < 0 ∨ (X.length : ℤ) < s.n_clusters) := by
    have h1 : 1 ≤ X.length := List.length_pos.mpr hX
    have h2 : (1 : ℤ) ≤ (X.length : ℤ) := by exact_mod_cast h1
    rw [hK]
    push_neg
    omega
  have htoNat : s.n_clusters.toNat = 1 := by rw [hK]; rfl
  obtain ⟨m, hm⟩ : ∃ m, s.max_iter.toNat = m + 2 := ⟨s.max_iter.toNat - 2, by omega⟩
  have hassign1 := assignLabels_singleton X (X.getD i [])
  have hassign2 := assignLabels_singleton X μ
  have hupd1 := updateCentroids_one X μ hμ
  have hclose2 := allclose_self [μ]
  rw [fitS, if_neg hbad, htoNat, hdraw, hm]
  rw [show m + 2 = m + 1 + 1 from rfl]
  simp only [List.map_cons, List.map_nil, loopS, Option.getD_some, hassign1, hupd1,
    hassign2, hfar, hclose2, Bool.false_eq_true, if_false, if_true]
  norm_num

/-- C6 witness: `X = [[0], [10]]`, initial index 0; the mean is `[5]`, the
initial centroid `[0]` is far from it, and fit converges in 2 iterations to
the mean. -/
theorem C6_K1_fit_mean_witness :
    (([[0], [10]] : List Point) ≠ []) ∧
    ((1 : ℤ) = 1) ∧ ((2 : ℤ) ≤ 5) ∧
    demoDraw 0 ([[0], [10]] : List Point).length 1 = [0] ∧
    meanPoint [[0], [10]] = some [5] ∧
    allclose [([[0], [10]] : List Point).getD 0 []] [[5]] = false ∧
    ((fitS demoDraw 0
      { n_clusters := 1, max_iter := 5, random_state := none, centroids := none,
        labels := none } [[0], [10]]).1 =
      { err := none, converged := true, itersRun := 2 } ∧
    (fitS demoDraw 0
      { n_clusters := 1, max_iter := 5, random_state := none, centroids := none,
        labels := none } [[0], [10]]).2.centroids = some [[5]] ∧
    (fitS demoDraw 0
      { n_clusters := 1, max_iter := 5, random_state := none, centroids := none,
        labels := none } [[0], [10]]).2.labels =
      some (List.replicate ([[0], [10]] : List Point).length 0)) := by
  have hX : ([[0], [10]] : List Point) ≠ [] := by simp
  have hdraw : demoDraw 0 ([[0], [10]] : List Point).length 1 = [0] := by
    norm_num [demoDraw, List.rotate, List.take]
  have hμ : meanPoint [[0], [10]] = some [5] := by
    norm_num [meanPoint, addVec]
  have hfar : allclose [([[0], [10]] : List Point).getD 0 []] [[5]] = false := by
    norm_num [allclose, rclose, List.getD]
  exact ⟨hX, rfl, by norm_num, hdraw, hμ, hfar,
    C6_K1_fit_mean demoDraw 0 _ _ 0 [5] hX rfl (by norm_num) hdraw hμ hfar⟩

/-- C6 counterexample: on `X = [[0], [10]]` with K = 1 the final centroid is
the mean `[5]`, but the run takes 2 iterations to converge, not exactly 1 as
the claim states. -/
theorem C6_counterexample :
    (fitS demoDraw 0
      { n_clusters := 1, max_iter := 5, random_state := none, centroids := none,
        labels := none } [[0], [10]]).2.centroids = some [[5]] ∧
    (fitS demoDraw 0
      { n_clusters := 1, max_iter := 5, random_state := none, centroids := none,
        labels := none } [[0], [10]]).1.itersRun = 2 ∧
    (fitS demoDraw 0
      { n_clusters := 1, max_iter := 5, random_state := none, centroids := none,
        labels := none } [[0], [10]]).1.itersRun ≠ 1 := by
  have hdraw : demoDraw 0 2 1 = [0] := by
    norm_num [demoDraw, List.rotate, List.take]
  have hassign1 : assignLabels [[0], [10]] [[0]] = some [0, 0] := by
    rw [assignLabels_of_ne_nil _ _ (by simp)]
    norm_num [argmin, sqDist]
  have hassign2 : assignLabels [[0], [10]] [[5]] = some [0, 0] := by
    rw [assignLabels_of_ne_nil _ _ (by simp)]
    norm_num [argmin, sqDist]
  have hupd : updateCentroids 1 [[0], [10]] [0, 0] = some [[5]] := by
    norm_num [updateCentroids, clusterPoints, meanPoint, addVec, List.mapM,
      List.mapM.loop, List.filterMap]
  have hclose1 : allclose [[0]] [[5]] = false := by
    norm_num [allclose, rclose]
  have hclose2 : allclose [[5]] [[5]] = true := allclose_self _
  have hrun : fitS demoDraw 0
      { n_clusters := 1, max_iter := 5, random_state := none, centroids := none,
        labels := none } [[0], [10]] =
      ({ err := none, converged := true, itersRun := 2 },
       { n_clusters := 1, max_iter := 5, random_state := none,
         centroids := some [[5]], labels := some [0, 0] }) := by
    norm_num [fitS, loopS, Int.toNat, List.getD, hdraw, hassign1, hassign2, hupd,
      hclose1, hclose2]
  rw [hrun]
  exact ⟨rfl, rfl, by norm_num⟩
